import Mathlib

/-!
Verification of the libp2pclient request/response client
(`internal/libp2pclient/client.go`).

The embedding translates the Go source into Lean:

* `peer.ID` and pointer identity of `*peerMessageSender` objects become
  `Nat` identifiers; pointer identity is modelled by a `sid` token that the
  allocator (`Client.peerSender`) hands out from a monotone counter, so two
  senders are "the same object" exactly when their `sid`s coincide.
* the registry `map[peer.ID]*peerMessageSender` guarded by `sendersLock`
  becomes an association list with unique keys, mutated only by the
  operations the Go code performs under the lock;
* the methods of `peerMessageSender` (`prepOrInvalidate`, `sendRequest`,
  `sendMessage`) and the `ctxMutex` are not part of the provided sources;
  where a claim needs them they are modelled from the specification and
  are marked as such in their doc comments.
-/

namespace Libp2pClient

/-- Peer identities (`peer.ID`). -/
abbrev PeerID := Nat

/-- Identity tokens standing for pointer identity of `*peerMessageSender`. -/
abbrev SenderID := Nat

/-- Protocol identifiers (`protocol.ID`). -/
abbrev ProtocolID := String

/-- Errors surfaced by the client.  `readTimeout` stands for the package
level `ErrReadTimeout`; every other error is an opaque code. -/
inductive Err where
  | readTimeout
  | other (code : Nat)
deriving DecidableEq, Repr

/-- Timeout (seconds) to wait for a response after a request is sent:
`var readMessageTimeout = 10 * time.Second` in the source. -/
def readMessageTimeout : Nat := 10

/-- A negotiated duplex stream to one peer: the opaque stream handle. -/
structure StreamHandle where
  peer : PeerID
  proto : ProtocolID
deriving DecidableEq, Repr

/-- State of the per-sender cancellable lock (`ctxMutex`): the caller
currently holding it, if any. -/
structure CtxMutex where
  holder : Option Nat
deriving DecidableEq, Repr

/-- `newCtxMutex()`: a fresh, unheld cancellable lock. -/
def newCtxMutex : CtxMutex := { holder := none }

/-- The `peerMessageSender` record: peer identity, cancellable lock and the
optional stream handle.  `sid` is the identity token modelling the Go
pointer. -/
structure PeerMessageSender where
  sid : SenderID
  peerID : PeerID
  ctxLock : CtxMutex
  stream : Option StreamHandle
deriving DecidableEq, Repr

/-- The registry `map[peer.ID]*peerMessageSender` as an association list. -/
abbrev Registry := List (PeerID × PeerMessageSender)

namespace Registry

/-- Map lookup. -/
def find (r : Registry) (p : PeerID) : Option PeerMessageSender :=
  match r with
  | [] => none
  | (q, ms) :: rest => if q = p then some ms else find rest p

/-- Map insertion (replaces an existing binding for the key). -/
def insert (r : Registry) (p : PeerID) (ms : PeerMessageSender) : Registry :=
  match r with
  | [] => [(p, ms)]
  | (q, ms0) :: rest =>
      if q = p then (p, ms) :: rest else (q, ms0) :: insert rest p ms

/-- Map deletion (`delete(c.peerSenders, peerID)`). -/
def erase (r : Registry) (p : PeerID) : Registry :=
  match r with
  | [] => []
  | (q, ms0) :: rest => if q = p then rest else (q, ms0) :: erase rest p

/-- Identity tokens of all senders currently reachable from the registry. -/
def sids (r : Registry) : List SenderID :=
  r.map (fun e => e.2.sid)

/-- In-place mutation of a sender object, seen through every registry slot
that holds the same pointer (same `sid`).  Models that the Go registry
stores pointers, so mutating `*ms` updates what the map exposes. -/
def writeThrough (r : Registry) (ms : PeerMessageSender) : Registry :=
  r.map (fun e => if e.2.sid = ms.sid then (e.1, ms) else e)

/-- Well-formedness of the registry: keys are unique, as in a Go map. -/
def keysNodup (r : Registry) : Prop :=
  (r.map Prod.fst).Nodup

end Registry

/-- The client state the registry operations touch: the sender map and the
allocator counter that models fresh pointer creation. -/
structure ClientState where
  senders : Registry
  nextId : SenderID
deriving DecidableEq, Repr

/-- `Client.peerSender` (client.go:86-100): under the registry lock, return
the existing entry for `peerID` if present; otherwise construct a fresh
`peerMessageSender` with this peer identity, a fresh cancellable lock and
no stream handle, insert it and return it. -/
def ClientState.peerSender (st : ClientState) (peerID : PeerID) :
    PeerMessageSender × ClientState :=
  match st.senders.find peerID with
  | some ms => (ms, st)
  | none =>
      let ms : PeerMessageSender :=
        { sid := st.nextId, peerID := peerID, ctxLock := newCtxMutex,
          stream := none }
      (ms, { senders := st.senders.insert peerID ms, nextId := st.nextId + 1 })

/-- Error path of `Client.messageSenderForPeer` (client.go:106-120),
entered when `prepOrInvalidate` on `ms` returned the error `e`.  The
argument registry is the contents of `c.peerSenders` observed once
`sendersLock` has been re-acquired (it may differ from the registry the
caller saw before preparing, because preparation runs outside the lock).
Compares the current entry to `ms` by pointer identity (`sid`). -/
def messageSenderForPeerOnErr (reg : Registry) (peerID : PeerID)
    (ms : PeerMessageSender) (e : Err) : Registry × Except Err PeerMessageSender :=
  match reg.find peerID with
  | some msCur =>
      if msCur.sid = ms.sid then
        (reg.erase peerID, .error e)
      else
        (reg, .ok msCur)
  | none => (reg, .error e)

/-- `Client.messageSenderForPeer` (client.go:102-124): look up or create the
sender for `peerID`, run `prepOrInvalidate` on it outside the registry
lock (here: the `prep` argument, which returns the mutated sender object
and the outcome), then either publish the prepared sender or run the
replace-or-evict error path.  `midReg` is the registry contents at the
moment the lock would be re-acquired; instantiating it with the registry
produced by the lookup models the interference-free execution. -/
def messageSenderForPeer (st0 : ClientState) (peerID : PeerID)
    (prep : PeerMessageSender → PeerMessageSender × Except Err Unit)
    (midReg : Registry) : Registry × Except Err PeerMessageSender :=
  let ms := (st0.peerSender peerID).1
  let res := prep ms
  match res.2 with
  | .ok _ => (midReg.writeThrough res.1, .ok res.1)
  | .error e => messageSenderForPeerOnErr midReg peerID ms e

/-- Error value standing for "the host returned an error for every
protocol attempted" (negotiation failure). -/
def negotiationFailed : Err := .other 100

/-- Modelled from the spec: the networking host's
`openStream(ctx, peerID, protocolPreferenceList)` (the host itself is not
part of the provided sources).  `accepts` says which protocols the remote
peer accepts; the protocols are attempted in list order and the first
successful negotiation wins; if every protocol fails, an error is
returned. -/
def openStream (accepts : ProtocolID → Bool) (peerID : PeerID) :
    List ProtocolID → Except Err StreamHandle
  | [] => .error negotiationFailed
  | p :: rest =>
      if accepts p then .ok { peer := peerID, proto := p }
      else openStream accepts peerID rest

/-- Modelled from the spec: `peerMessageSender.prepOrInvalidate`, whose
body is not part of the provided sources.  With no stream handle present
it tries the accepted protocols in order via the host; on success the
handle is installed; if every protocol fails, the call fails, the handle
is left absent and the cancellable lock is released.  With a handle
already present it succeeds. -/
def prepOrInvalidate (accepts : ProtocolID → Bool) (protos : List ProtocolID)
    (ms : PeerMessageSender) : PeerMessageSender × Except Err Unit :=
  match ms.stream with
  | some _ => (ms, .ok ())
  | none =>
      match openStream accepts ms.peerID protos with
      | .ok h => ({ ms with stream := some h }, .ok ())
      | .error e => ({ ms with ctxLock := newCtxMutex }, .error e)

/-- The behaviour of the wire during one exchange: whether the write
fails, and when (seconds after the read starts) response bytes arrive,
`none` meaning they never do. -/
structure WireEnv where
  writeErr : Option Err
  responseArrival : Option Nat
  responseBytes : List Nat
deriving DecidableEq, Repr

/-- Modelled from the spec: the response read of `sendRequest`.  Returns
the outcome together with the absolute time at which the read phase ends:
bytes arriving within `readMessageTimeout` seconds of `readStart` are
returned, otherwise the read fails with `ErrReadTimeout` exactly when the
fixed window closes. -/
def readResponse (env : WireEnv) (readStart : Nat) : Except Err (List Nat) × Nat :=
  match env.responseArrival with
  | some t =>
      if t < readMessageTimeout then (.ok env.responseBytes, readStart + t)
      else (.error .readTimeout, readStart + readMessageTimeout)
  | none => (.error .readTimeout, readStart + readMessageTimeout)

/-- Modelled from the spec: `peerMessageSender.sendRequest`, whose body is
not part of the provided sources.  Writes the message (a write error tears
the stream down immediately), reads the response within the fixed
`readMessageTimeout` window independent of `callerDeadline` (which is
deliberately never consulted), tearing the stream down on timeout, and
finally runs the caller-supplied decoder: a decode error is returned
verbatim with the stream left intact.  The last component is the time at
which the call's read phase ended. -/
def sendRequestOn (env : WireEnv) (decodeRsp : List Nat → Option Err)
    (callerDeadline : Option Nat) (readStart : Nat) (ms : PeerMessageSender) :
    PeerMessageSender × Except Err Unit × Nat :=
  match env.writeErr with
  | some e => ({ ms with stream := none }, .error e, readStart)
  | none =>
      match readResponse env readStart with
      | (.error e, t) => ({ ms with stream := none }, .error e, t)
      | (.ok bytes, t) =>
          match decodeRsp bytes with
          | some e => (ms, .error e, t)
          | none => (ms, .ok (), t)

/-- Modelled from the spec: `peerMessageSender.sendMessage`, whose body is
not part of the provided sources: same write path as `sendRequest` but no
read; succeeds once the write completes without error. -/
def sendMessageOn (env : WireEnv) (ms : PeerMessageSender) :
    PeerMessageSender × Except Err Unit :=
  match env.writeErr with
  | some e => ({ ms with stream := none }, .error e)
  | none => (ms, .ok ())

/-- `Client.SendRequest` (client.go:60-68): resolve the sender via
`messageSenderForPeer`, returning its error on failure, otherwise delegate
to the sender's `sendRequest` and return its result; the sender object's
mutations are visible through the registry (pointer write-through). -/
def clientSendRequest (st0 : ClientState) (peerID : PeerID)
    (prep : PeerMessageSender → PeerMessageSender × Except Err Unit)
    (midReg : Registry) (env : WireEnv) (decodeRsp : List Nat → Option Err)
    (callerDeadline : Option Nat) (readStart : Nat) :
    Registry × Except Err Unit :=
  match messageSenderForPeer st0 peerID prep midReg with
  | (reg, .error e) => (reg, .error e)
  | (reg, .ok sender) =>
      let res := sendRequestOn env decodeRsp callerDeadline readStart sender
      (reg.writeThrough res.1, res.2.1)

/-- `Client.SendMessage` (client.go:70-84): resolve the sender via
`messageSenderForPeer`, returning its error on failure, otherwise delegate
to the sender's `sendMessage` and return its result. -/
def clientSendMessage (st0 : ClientState) (peerID : PeerID)
    (prep : PeerMessageSender → PeerMessageSender × Except Err Unit)
    (midReg : Registry) (env : WireEnv) : Registry × Except Err Unit :=
  match messageSenderForPeer st0 peerID prep midReg with
  | (reg, .error e) => (reg, .error e)
  | (reg, .ok sender) =>
      let res := sendMessageOn env sender
      (reg.writeThrough res.1, res.2)

/-- Modelled from the spec: the `clientConfig` record built by applying
`ClientOption`s, whose definition is not part of the provided sources.
Per the spec the recognized options include the set of accepted protocol
identifiers (ordered by preference), `none` meaning the option was left
unspecified. -/
structure clientConfig where
  protocols : Option (List ProtocolID)
deriving DecidableEq, Repr

/-- Modelled from the spec: a `ClientOption` is a configuration updater
that may fail (the Go functional-options pattern). -/
abbrev ClientOption := clientConfig → Except Err clientConfig

/-- Modelled from the spec: `cfg.apply(options...)` applies the options in
order, stopping at the first failure. -/
def clientConfig.apply (cfg : clientConfig) :
    List ClientOption → Except Err clientConfig
  | [] => .ok cfg
  | o :: os =>
      match o cfg with
      | .ok cfg2 => cfg2.apply os
      | .error e => .error e

/-- The `Client` record as constructed by `NewClient`: local peer identity
(from the host) and the ordered protocol list.  The context, host handle
and the (initially empty) sender registry are not needed by the
construction claims. -/
structure Client where
  self : PeerID
  protocols : List ProtocolID
deriving DecidableEq, Repr

/-- `NewClient` (client.go:43-57): apply the options, returning their
error on failure; otherwise build the client with the host identity and
the protocol list `[protoID]` from the positional argument.  The applied
configuration is not consulted by the construction. -/
def NewClient (hostID : PeerID) (protoID : ProtocolID)
    (options : List ClientOption) : Except Err Client :=
  match clientConfig.apply { protocols := none } options with
  | .error e => .error e
  | .ok _cfg => .ok { self := hostID, protocols := [protoID] }

/-- Follows the specification words, for comparison with `NewClient`: the
constructed client's protocol list is the accepted-protocol set determined
by the applied options, defaulting to `[protoID]` when that option was
left unspecified. -/
def NewClientSpec (hostID : PeerID) (protoID : ProtocolID)
    (options : List ClientOption) : Except Err Client :=
  match clientConfig.apply { protocols := none } options with
  | .error e => .error e
  | .ok cfg => .ok { self := hostID, protocols := cfg.protocols.getD [protoID] }

/-- A recognized option setting the accepted protocol identifiers, per the
spec's configuration surface. -/
def withProtocols (l : List ProtocolID) : ClientOption :=
  fun cfg => .ok { cfg with protocols := some l }

/-- The registry operations the code performs, as trace steps: a
`Client.peerSender` lookup, the error path of `messageSenderForPeer` for a
failed instance identified by `sid`, removal of a peer's entry by a
disconnect handler, and an in-place mutation of a sender object visible
through the registry. -/
inductive RegOp where
  | lookup (p : PeerID)
  | prepFailed (p : PeerID) (sid : SenderID) (e : Err)
  | disconnect (p : PeerID)
  | mutate (ms : PeerMessageSender)
deriving DecidableEq, Repr

/-- Effect of one registry operation on the client state. -/
def RegOp.step (st : ClientState) : RegOp → ClientState
  | .lookup p => (st.peerSender p).2
  | .prepFailed p sid e =>
      { st with senders :=
          (messageSenderForPeerOnErr st.senders p
            { sid := sid, peerID := p, ctxLock := newCtxMutex, stream := none }
            e).1 }
  | .disconnect p => { st with senders := st.senders.erase p }
  | .mutate ms => { st with senders := st.senders.writeThrough ms }

/-- Run a sequence of registry operations. -/
def runOps (ops : List RegOp) (st : ClientState) : ClientState :=
  ops.foldl RegOp.step st

/-- Modelled from the spec: phase of one caller with respect to the
per-peer cancellable locks — idle, waiting to acquire peer `p`'s lock, or
inside the critical section for peer `p`. -/
inductive Phase where
  | idle
  | waiting (p : PeerID)
  | critical (p : PeerID)
deriving DecidableEq, Repr

/-- Modelled from the spec: the state of the per-peer cancellable locks
(`ctxMutex`, not part of the provided sources) shared by concurrent
callers.  `holder p` is the caller currently holding peer `p`'s lock;
`phase c` is caller `c`'s phase; `acqCount p` counts acquisitions of `p`'s
lock; `curToken p` is the acquisition index of the current critical
section; `log p` records the writes applied to peer `p`'s stream as
(caller, acquisition index, message). -/
structure LockState where
  holder : PeerID → Option Nat
  phase : Nat → Phase
  acqCount : PeerID → Nat
  curToken : PeerID → Nat
  log : PeerID → List (Nat × Nat × Nat)

/-- Initial lock state: all locks free, all callers idle, empty logs. -/
def initLock : LockState :=
  { holder := fun _ => none
    phase := fun _ => Phase.idle
    acqCount := fun _ => 0
    curToken := fun _ => 0
    log := fun _ => [] }

/-- Modelled from the spec: the steps concurrent callers can take against
the per-peer locks.  A caller asks for a peer's lock, acquires it only
when it is free, writes on that peer's stream only while holding its lock,
releases it, or abandons a pending acquisition when its context is
cancelled. -/
inductive LockStep : LockState → LockState → Prop
  | request (st : LockState) (c : Nat) (p : PeerID)
      (hc : st.phase c = Phase.idle) :
      LockStep st { st with phase := Function.update st.phase c (Phase.waiting p) }
  | acquire (st : LockState) (c : Nat) (p : PeerID)
      (hc : st.phase c = Phase.waiting p) (hfree : st.holder p = none) :
      LockStep st
        { st with
          holder := Function.update st.holder p (some c)
          phase := Function.update st.phase c (Phase.critical p)
          acqCount := Function.update st.acqCount p (st.acqCount p + 1)
          curToken := Function.update st.curToken p (st.acqCount p + 1) }
  | write (st : LockState) (c : Nat) (p : PeerID) (m : Nat)
      (hc : st.phase c = Phase.critical p) :
      LockStep st
        { st with log := Function.update st.log p (st.log p ++ [(c, st.curToken p, m)]) }
  | release (st : LockState) (c : Nat) (p : PeerID)
      (hc : st.phase c = Phase.critical p) :
      LockStep st
        { st with
          holder := Function.update st.holder p none
          phase := Function.update st.phase c Phase.idle }
  | cancelWait (st : LockState) (c : Nat) (p : PeerID)
      (hc : st.phase c = Phase.waiting p) :
      LockStep st { st with phase := Function.update st.phase c Phase.idle }

/-- Lock states reachable from the initial state. -/
def ReachableLock (st : LockState) : Prop :=
  Relation.ReflTransGen LockStep initLock st

/-- The acquire step for caller `c` on peer `p` is enabled. -/
def acquireEnabled (st : LockState) (c : Nat) (p : PeerID) : Prop :=
  st.phase c = Phase.waiting p ∧ st.holder p = none

/-- Lock-model invariant tying phases, holders and logs together: a caller
in the critical section for `p` is the recorded holder of `p`'s lock; the
current token never exceeds the acquisition count; every logged write
carries a token at most the acquisition count at its time; and the token
sequence of each log is nondecreasing with all tokens at most the current
token of `p`. -/
def LockInv (st : LockState) : Prop :=
  (∀ c p, st.phase c = Phase.critical p → st.holder p = some c) ∧
  (∀ p, st.curToken p ≤ st.acqCount p) ∧
  (∀ p e, e ∈ st.log p → e.2.1 ≤ st.curToken p) ∧
  (∀ p, (st.log p).map (fun e => e.2.1) |>.Sorted (· ≤ ·))

/-- A demonstration state: caller 0 has asked for peer 0's lock. -/
def lockDemo1 : LockState :=
  { initLock with phase := Function.update initLock.phase 0 (Phase.waiting 0) }

/-- A demonstration state: caller 0 has acquired peer 0's lock. -/
def lockDemo2 : LockState :=
  { lockDemo1 with
    holder := Function.update lockDemo1.holder 0 (some 0)
    phase := Function.update lockDemo1.phase 0 (Phase.critical 0)
    acqCount := Function.update lockDemo1.acqCount 0 (lockDemo1.acqCount 0 + 1)
    curToken := Function.update lockDemo1.curToken 0 (lockDemo1.acqCount 0 + 1) }

namespace Registry

theorem find_insert_self (r : Registry) (p : PeerID) (ms : PeerMessageSender) :
    (r.insert p ms).find p = some ms := by
  induction r with
  | nil => simp [Registry.insert, Registry.find]
  | cons e rest ih =>
      obtain ⟨q, ms0⟩ := e
      by_cases h : q = p
      · simp [Registry.insert, Registry.find, h]
      · simp [Registry.insert, Registry.find, h, ih]

theorem find_mem (r : Registry) (p : PeerID) (ms : PeerMessageSender)
    (h : r.find p = some ms) : (p, ms) ∈ r := by
  induction r with
  | nil => simp [Registry.find] at h
  | cons e rest ih =>
      obtain ⟨q, ms0⟩ := e
      by_cases hq : q = p
      · simp [Registry.find, hq] at h
        subst hq h
        exact List.mem_cons_self _ _
      · simp [Registry.find, hq] at h
        exact List.mem_cons_of_mem _ (ih h)

theorem find_eq_none (r : Registry) (p : PeerID)
    (h : ∀ ms, (p, ms) ∉ r) : r.find p = none := by
  induction r with
  | nil => rfl
  | cons e rest ih =>
      obtain ⟨q, ms0⟩ := e
      have hq : ¬q = p := by
        intro hqp
        subst hqp
        exact h ms0 (List.mem_cons_self _ _)
      have hrest : ∀ ms, (p, ms) ∉ rest :=
        fun ms hm => h ms (List.mem_cons_of_mem _ hm)
      simp [Registry.find, hq, ih hrest]

theorem keysNodup_cons_iff (q : PeerID) (ms0 : PeerMessageSender) (rest : Registry) :
    keysNodup ((q, ms0) :: rest) ↔ (∀ ms, (q, ms) ∉ rest) ∧ keysNodup rest := by
  simp [Registry.keysNodup, List.nodup_cons]

theorem mem_insert_elim (r : Registry) (p : PeerID) (ms : PeerMessageSender)
    (x : PeerID) (ms1 : PeerMessageSender) (h : (x, ms1) ∈ r.insert p ms) :
    (x, ms1) ∈ r ∨ (x = p ∧ ms1 = ms) := by
  induction r with
  | nil =>
      simp [Registry.insert] at h
      simp [h]
  | cons e rest ih =>
      obtain ⟨q, ms0⟩ := e
      by_cases hq : q = p
      · subst hq
        have : Registry.insert ((q, ms0) :: rest) q ms = (q, ms) :: rest := by
          simp [Registry.insert]
        rw [this] at h
        rcases List.mem_cons.mp h with he | ht
        · right
          exact ⟨congrArg Prod.fst he, congrArg Prod.snd he⟩
        · left
          exact List.mem_cons_of_mem _ ht
      · have : Registry.insert ((q, ms0) :: rest) p ms =
            (q, ms0) :: Registry.insert rest p ms := by
          simp [Registry.insert, hq]
        rw [this] at h
        rcases List.mem_cons.mp h with he | ht
        · left
          exact List.mem_cons.mpr (Or.inl he)
        · rcases ih ht with hm | hm
          · left
            exact List.mem_cons_of_mem _ hm
          · right
            exact hm

theorem keysNodup_insert (r : Registry) (p : PeerID) (ms : PeerMessageSender)
    (h : r.keysNodup) : (r.insert p ms).keysNodup := by
  induction r with
  | nil => simp [Registry.insert, Registry.keysNodup]
  | cons e rest ih =>
      obtain ⟨q, ms0⟩ := e
      rw [keysNodup_cons_iff] at h
      by_cases hq : q = p
      · subst hq
        have : Registry.insert ((q, ms0) :: rest) q ms = (q, ms) :: rest := by
          simp [Registry.insert]
        rw [this, keysNodup_cons_iff]
        exact ⟨h.1, h.2⟩
      · have : Registry.insert ((q, ms0) :: rest) p ms =
            (q, ms0) :: Registry.insert rest p ms := by
          simp [Registry.insert, hq]
        rw [this, keysNodup_cons_iff]
        refine ⟨?_, ih h.2⟩
        intro ms1 hm
        rcases mem_insert_elim rest p ms q ms1 hm with hm | hm
        · exact h.1 ms1 hm
        · exact hq hm.1

theorem mem_erase_elim (r : Registry) (p : PeerID) (x : PeerID)
    (ms1 : PeerMessageSender) (h : (x, ms1) ∈ r.erase p) : (x, ms1) ∈ r := by
  induction r with
  | nil => simpa [Registry.erase] using h
  | cons e rest ih =>
      obtain ⟨q, ms0⟩ := e
      by_cases hq : q = p
      · have : Registry.erase ((q, ms0) :: rest) p = rest := by
          simp [Registry.erase, hq]
        rw [this] at h
        exact List.mem_cons_of_mem _ h
      · have : Registry.erase ((q, ms0) :: rest) p =
            (q, ms0) :: Registry.erase rest p := by
          simp [Registry.erase, hq]
        rw [this] at h
        rcases List.mem_cons.mp h with he | ht
        · exact List.mem_cons.mpr (Or.inl he)
        · exact List.mem_cons_of_mem _ (ih ht)

theorem keysNodup_erase (r : Registry) (p : PeerID) (h : r.keysNodup) :
    (r.erase p).keysNodup := by
  induction r with
  | nil => simpa [Registry.erase] using h
  | cons e rest ih =>
      obtain ⟨q, ms0⟩ := e
      rw [keysNodup_cons_iff] at h
      by_cases hq : q = p
      · have : Registry.erase ((q, ms0) :: rest) p = rest := by
          simp [Registry.erase, hq]
        rw [this]
        exact h.2
      · have : Registry.erase ((q, ms0) :: rest) p =
            (q, ms0) :: Registry.erase rest p := by
          simp [Registry.erase, hq]
        rw [this, keysNodup_cons_iff]
        exact ⟨fun ms1 hm => h.1 ms1 (mem_erase_elim rest p q ms1 hm), ih h.2⟩

theorem find_erase_self (r : Registry) (p : PeerID) (h : r.keysNodup) :
    (r.erase p).find p = none := by
  induction r with
  | nil => rfl
  | cons e rest ih =>
      obtain ⟨q, ms0⟩ := e
      rw [keysNodup_cons_iff] at h
      by_cases hq : q = p
      · have he : Registry.erase ((q, ms0) :: rest) p = rest := by
          simp [Registry.erase, hq]
        rw [he]
        subst hq
        exact find_eq_none rest q h.1
      · have he : Registry.erase ((q, ms0) :: rest) p =
            (q, ms0) :: Registry.erase rest p := by
          simp [Registry.erase, hq]
        rw [he]
        simp [Registry.find, hq, ih h.2]

theorem mem_unique (r : Registry) (h : r.keysNodup) (p : PeerID)
    (ms1 ms2 : PeerMessageSender) (h1 : (p, ms1) ∈ r) (h2 : (p, ms2) ∈ r) :
    ms1 = ms2 := by
  induction r with
  | nil => simp at h1
  | cons e rest ih =>
      obtain ⟨q, ms0⟩ := e
      rw [keysNodup_cons_iff] at h
      rcases List.mem_cons.mp h1 with he1 | ht1 <;>
        rcases List.mem_cons.mp h2 with he2 | ht2
      · have e1 := congrArg Prod.snd he1
        have e2 := congrArg Prod.snd he2
        simp at e1 e2
        rw [e1, e2]
      · have hpq := congrArg Prod.fst he1
        simp at hpq
        subst hpq
        exact absurd ht2 (h.1 ms2)
      · have hpq := congrArg Prod.fst he2
        simp at hpq
        subst hpq
        exact absurd ht1 (h.1 ms1)
      · exact ih h.2 ht1 ht2

theorem sids_writeThrough (r : Registry) (ms : PeerMessageSender) :
    (r.writeThrough ms).sids = r.sids := by
  simp only [Registry.writeThrough, Registry.sids, List.map_map]
  apply List.map_congr_left
  intro e _
  by_cases h : e.2.sid = ms.sid
  · simp [Function.comp, h]
  · simp [Function.comp, h]

theorem mem_sids_insert (r : Registry) (p : PeerID) (ms : PeerMessageSender)
    (x : SenderID) (h : x ∈ (r.insert p ms).sids) : x ∈ r.sids ∨ x = ms.sid := by
  rcases List.mem_map.mp h with ⟨e, he, hx⟩
  rcases mem_insert_elim r p ms e.1 e.2 he with hm | hm
  · left
    exact hx ▸ List.mem_map_of_mem _ hm
  · right
    rw [← hx, hm.2]

theorem mem_sids_erase (r : Registry) (p : PeerID) (x : SenderID)
    (h : x ∈ (r.erase p).sids) : x ∈ r.sids := by
  rcases List.mem_map.mp h with ⟨e, he, hx⟩
  exact hx ▸ List.mem_map_of_mem _ (mem_erase_elim r p e.1 e.2 he)

theorem find_writeThrough (r : Registry) (ms : PeerMessageSender) (p : PeerID) :
    (r.writeThrough ms).find p =
      (r.find p).map (fun cur => if cur.sid = ms.sid then ms else cur) := by
  induction r with
  | nil => rfl
  | cons e rest ih =>
      obtain ⟨q, ms0⟩ := e
      simp only [Registry.writeThrough, List.map_cons]
      by_cases hs : ms0.sid = ms.sid
      · rw [if_pos hs]
        by_cases hq : q = p
        · simp only [Registry.find, if_pos hq]
          simp [hs]
        · simp only [Registry.find, if_neg hq]
          exact ih
      · rw [if_neg hs]
        by_cases hq : q = p
        · simp only [Registry.find, if_pos hq]
          simp [hs]
        · simp only [Registry.find, if_neg hq]
          exact ih

theorem writeThrough_writeThrough (r : Registry) (ms : PeerMessageSender) :
    (r.writeThrough ms).writeThrough ms = r.writeThrough ms := by
  induction r with
  | nil => rfl
  | cons e rest ih =>
      simp only [Registry.writeThrough, List.map_cons] at ih ⊢
      by_cases h : e.2.sid = ms.sid
      · rw [if_pos h]
        simp [ih]
      · rw [if_neg h]
        simp [h, ih]

end Registry

/-- C4: `lookupOrCreate` postcondition.  Under the registry lock,
`peerSender` returns the existing registry entry when one is present (and
leaves the state untouched); otherwise it constructs a new
`peerMessageSender` carrying the requested peer identity, a fresh
cancellable lock and no stream handle, inserts it into the registry (so a
subsequent lookup finds it) and returns it. -/
theorem peerSender_postcondition (st : ClientState) (peerID : PeerID) :
    (∀ ms, st.senders.find peerID = some ms → st.peerSender peerID = (ms, st)) ∧
    (st.senders.find peerID = none →
      st.peerSender peerID =
        ({ sid := st.nextId, peerID := peerID, ctxLock := newCtxMutex,
           stream := none },
         { senders := st.senders.insert peerID
             { sid := st.nextId, peerID := peerID, ctxLock := newCtxMutex,
               stream := none },
           nextId := st.nextId + 1 }) ∧
      ((st.peerSender peerID).2).senders.find peerID =
        some { sid := st.nextId, peerID := peerID, ctxLock := newCtxMutex,
               stream := none }) := by
  constructor
  · intro ms h
    simp [ClientState.peerSender, h]
  · intro h
    constructor
    · simp [ClientState.peerSender, h]
    · simp [ClientState.peerSender, h, Registry.find_insert_self]

/-- Witness for C4 on a concrete empty state: the lookup for peer 5
constructs, inserts and returns the fresh unprepared sender. -/
theorem peerSender_postcondition_witness :
    ClientState.peerSender { senders := [], nextId := 0 } 5 =
      ({ sid := 0, peerID := 5, ctxLock := newCtxMutex, stream := none },
       { senders := [(5, { sid := 0, peerID := 5, ctxLock := newCtxMutex, stream := none })],
         nextId := 1 }) :=
  ((peerSender_postcondition { senders := [], nextId := 0 } 5).2 rfl).1

/-- C2: registry uniqueness invariant.  `peerSender` never overwrites an
existing entry (it returns it with the state unchanged); it preserves
key-uniqueness of the registry; and under key-uniqueness at most one
sender instance is associated with any peer identity reachable through the
registry. -/
theorem registry_uniqueness (st : ClientState) (peerID : PeerID) :
    (∀ ms, st.senders.find peerID = some ms → st.peerSender peerID = (ms, st)) ∧
    (st.senders.keysNodup → ((st.peerSender peerID).2).senders.keysNodup) ∧
    (st.senders.keysNodup →
      ∀ p ms1 ms2, (p, ms1) ∈ st.senders → (p, ms2) ∈ st.senders → ms1 = ms2) := by
  refine ⟨?_, ?_, ?_⟩
  · intro ms h
    simp [ClientState.peerSender, h]
  · intro hwf
    cases hfind : st.senders.find peerID with
    | some ms => simpa [ClientState.peerSender, hfind] using hwf
    | none =>
        simp only [ClientState.peerSender, hfind]
        exact Registry.keysNodup_insert _ _ _ hwf
  · intro hwf p ms1 ms2 h1 h2
    exact Registry.mem_unique st.senders hwf p ms1 ms2 h1 h2

/-- Witness for C2 on a concrete one-entry registry: looking up the
existing entry for peer 3 returns it and leaves the state unchanged. -/
theorem registry_uniqueness_witness :
    ClientState.peerSender
        { senders := [(3, { sid := 0, peerID := 3, ctxLock := newCtxMutex, stream := none })],
          nextId := 1 } 3 =
      ({ sid := 0, peerID := 3, ctxLock := newCtxMutex, stream := none },
       { senders := [(3, { sid := 0, peerID := 3, ctxLock := newCtxMutex, stream := none })],
         nextId := 1 }) :=
  (registry_uniqueness
    { senders := [(3, { sid := 0, peerID := 3, ctxLock := newCtxMutex, stream := none })],
      nextId := 1 } 3).1 _ rfl

/-- C1: replace-or-evict trichotomy.  When preparation of `ms` fails with
`e`, the error path of `messageSenderForPeer` (run under the re-acquired
registry lock) has exactly three outcomes: a different current instance is
returned with success and the registry is untouched; the same instance is
removed from the registry (a key-unique registry then has no entry for the
peer) and `e` is returned; or, with no entry present, `e` is returned and
the registry is untouched. -/
theorem replaceOrEvict_trichotomy (reg : Registry) (peerID : PeerID)
    (ms : PeerMessageSender) (e : Err) :
    (∀ msCur, reg.find peerID = some msCur → msCur.sid ≠ ms.sid →
      messageSenderForPeerOnErr reg peerID ms e = (reg, .ok msCur)) ∧
    (∀ msCur, reg.find peerID = some msCur → msCur.sid = ms.sid →
      messageSenderForPeerOnErr reg peerID ms e = (reg.erase peerID, .error e) ∧
      (reg.keysNodup → (reg.erase peerID).find peerID = none)) ∧
    (reg.find peerID = none →
      messageSenderForPeerOnErr reg peerID ms e = (reg, .error e)) := by
  refine ⟨?_, ?_, ?_⟩
  · intro msCur hfind hne
    simp [messageSenderForPeerOnErr, hfind, hne]
  · intro msCur hfind heq
    exact ⟨by simp [messageSenderForPeerOnErr, hfind, heq],
      fun hwf => Registry.find_erase_self reg peerID hwf⟩
  · intro hfind
    simp [messageSenderForPeerOnErr, hfind]

/-- Witness for C1 at a concrete registry whose current entry for peer 2
is a different instance (sid 9) than the failed one (sid 4): the current
instance is returned with success and the registry is untouched. -/
theorem replaceOrEvict_trichotomy_witness :
    messageSenderForPeerOnErr
        [(2, { sid := 9, peerID := 2, ctxLock := newCtxMutex, stream := none })]
        2 { sid := 4, peerID := 2, ctxLock := newCtxMutex, stream := none }
        (.other 1) =
      ([(2, { sid := 9, peerID := 2, ctxLock := newCtxMutex, stream := none })],
       .ok { sid := 9, peerID := 2, ctxLock := newCtxMutex, stream := none }) :=
  (replaceOrEvict_trichotomy
    [(2, { sid := 9, peerID := 2, ctxLock := newCtxMutex, stream := none })]
    2 { sid := 4, peerID := 2, ctxLock := newCtxMutex, stream := none }
    (.other 1)).1 _ rfl (by decide)

/-- C10: changed-entry path.  When this caller's own preparation of the
looked-up sender fails while the registry's current entry for the peer is
a different instance, `messageSenderForPeer` returns that current instance
with success, and `SendRequest` / `SendMessage` then proceed to send on
that adopted instance — one whose identity differs from the only sender
this caller itself prepared (so this caller never ran `prepOrInvalidate`
on it nor observed a preparation success for it). -/
theorem changedEntry_path (st0 : ClientState) (peerID : PeerID)
    (prep : PeerMessageSender → PeerMessageSender × Except Err Unit)
    (midReg : Registry) (env : WireEnv) (decodeRsp : List Nat → Option Err)
    (cd : Option Nat) (rs : Nat) (e : Err) (ms2 msCur : PeerMessageSender)
    (hprep : prep ((st0.peerSender peerID).1) = (ms2, .error e))
    (hcur : midReg.find peerID = some msCur)
    (hne : msCur.sid ≠ ((st0.peerSender peerID).1).sid) :
    messageSenderForPeer st0 peerID prep midReg = (midReg, .ok msCur) ∧
    clientSendRequest st0 peerID prep midReg env decodeRsp cd rs =
      (midReg.writeThrough (sendRequestOn env decodeRsp cd rs msCur).1,
       (sendRequestOn env decodeRsp cd rs msCur).2.1) ∧
    clientSendMessage st0 peerID prep midReg env =
      (midReg.writeThrough (sendMessageOn env msCur).1,
       (sendMessageOn env msCur).2) ∧
    msCur.sid ≠ ((st0.peerSender peerID).1).sid := by
  have hres : messageSenderForPeer st0 peerID prep midReg = (midReg, .ok msCur) := by
    simp [messageSenderForPeer, hprep, messageSenderForPeerOnErr, hcur, hne]
  refine ⟨hres, ?_, ?_, hne⟩
  · simp [clientSendRequest, hres]
  · simp [clientSendMessage, hres]

/-- Witness for C10: a caller whose preparation always fails adopts the
concurrently installed entry (sid 9) for peer 2 and its `SendMessage`
succeeds on it over a clean wire. -/
theorem changedEntry_path_witness :
    clientSendMessage { senders := [], nextId := 0 } 2
        (fun ms => (ms, .error (.other 3)))
        [(2, { sid := 9, peerID := 2, ctxLock := newCtxMutex, stream := some { peer := 2, proto := "v1" } })]
        { writeErr := none, responseArrival := none, responseBytes := [] } =
      ([(2, { sid := 9, peerID := 2, ctxLock := newCtxMutex, stream := some { peer := 2, proto := "v1" } })],
       .ok ()) := by
  have h := (changedEntry_path { senders := [], nextId := 0 } 2
    (fun ms => (ms, .error (.other 3)))
    [(2, { sid := 9, peerID := 2, ctxLock := newCtxMutex, stream := some { peer := 2, proto := "v1" } })]
    { writeErr := none, responseArrival := none, responseBytes := [] }
    (fun _ => none) none 0 (.other 3)
    { sid := 0, peerID := 2, ctxLock := newCtxMutex, stream := none }
    { sid := 9, peerID := 2, ctxLock := newCtxMutex, stream := some { peer := 2, proto := "v1" } }
    rfl rfl (by decide)).2.2.1
  simpa [sendMessageOn, Registry.writeThrough] using h

/-- C5: read-timeout behaviour.  When the write succeeds but no response
bytes arrive before the fixed window closes, `sendRequest` fails with the
distinct `ErrReadTimeout` condition exactly `readMessageTimeout` seconds
after the start of the read, the stream handle is torn down, the window is
the fixed 10 seconds of the source, and the outcome is independent of the
caller's own deadline. -/
theorem readTimeout_behaviour (env : WireEnv) (decodeRsp : List Nat → Option Err)
    (d : Option Nat) (rs : Nat) (ms : PeerMessageSender)
    (hw : env.writeErr = none)
    (hnb : ∀ t ∈ env.responseArrival, readMessageTimeout ≤ t) :
    sendRequestOn env decodeRsp d rs ms =
      ({ ms with stream := none }, .error .readTimeout, rs + readMessageTimeout) ∧
    readMessageTimeout = 10 ∧
    (∀ d1 d2, sendRequestOn env decodeRsp d1 rs ms =
      sendRequestOn env decodeRsp d2 rs ms) := by
  have hread : readResponse env rs = (.error .readTimeout, rs + readMessageTimeout) := by
    cases harr : env.responseArrival with
    | none => simp [readResponse, harr]
    | some t =>
        have hle := hnb t (by simp [harr])
        simp [readResponse, harr, Nat.not_lt.mpr hle]
  refine ⟨?_, rfl, fun d1 d2 => rfl⟩
  simp [sendRequestOn, hw, hread]

/-- Witness for C5: over a wire that never responds, a request on a peer-1
sender fails with `ErrReadTimeout` at second 10 and the handle is gone. -/
theorem readTimeout_behaviour_witness :
    sendRequestOn { writeErr := none, responseArrival := none, responseBytes := [] }
        (fun _ => none) none 0
        { sid := 0, peerID := 1, ctxLock := newCtxMutex, stream := some { peer := 1, proto := "v1" } } =
      ({ sid := 0, peerID := 1, ctxLock := newCtxMutex, stream := none },
       .error .readTimeout, 10) := by
  have h := (readTimeout_behaviour
    { writeErr := none, responseArrival := none, responseBytes := [] }
    (fun _ => none) none 0
    { sid := 0, peerID := 1, ctxLock := newCtxMutex, stream := some { peer := 1, proto := "v1" } }
    rfl (by simp)).1
  simpa using h

/-- C6: a decode failure preserves the stream.  With a prepared sender
whose write and read succeed but whose caller-supplied decoder rejects the
bytes, the decoder's error is returned verbatim, the sender and its stream
handle are left untouched, the client-level `SendRequest` does not evict
the entry (the registry still maps the peer to the same instance with the
same handle), and the next preparation reuses that same handle without
renegotiating. -/
theorem decodeFailure_preserves_stream (st0 : ClientState) (peerID : PeerID)
    (accepts : ProtocolID → Bool) (protos : List ProtocolID)
    (env : WireEnv) (decodeRsp : List Nat → Option Err) (d : Option Nat)
    (rs t : Nat) (e : Err) (ms : PeerMessageSender) (hdl : StreamHandle)
    (hfind : st0.senders.find peerID = some ms)
    (hstream : ms.stream = some hdl)
    (hw : env.writeErr = none)
    (harr : env.responseArrival = some t) (ht : t < readMessageTimeout)
    (hdec : decodeRsp env.responseBytes = some e) :
    sendRequestOn env decodeRsp d rs ms = (ms, .error e, rs + t) ∧
    clientSendRequest st0 peerID (prepOrInvalidate accepts protos)
        st0.senders env decodeRsp d rs =
      (st0.senders.writeThrough ms, .error e) ∧
    (st0.senders.writeThrough ms).find peerID = some ms ∧
    prepOrInvalidate accepts protos ms = (ms, .ok ()) := by
  have hsend : sendRequestOn env decodeRsp d rs ms = (ms, .error e, rs + t) := by
    simp [sendRequestOn, hw, readResponse, harr, ht, hdec]
  have hprep : prepOrInvalidate accepts protos ms = (ms, .ok ()) := by
    simp [prepOrInvalidate, hstream]
  have hms0 : (st0.peerSender peerID).1 = ms := by
    simp [ClientState.peerSender, hfind]
  have hmsfp : messageSenderForPeer st0 peerID (prepOrInvalidate accepts protos)
      st0.senders = (st0.senders.writeThrough ms, .ok ms) := by
    simp [messageSenderForPeer, hms0, hprep]
  have hfindwt : (st0.senders.writeThrough ms).find peerID = some ms := by
    rw [Registry.find_writeThrough, hfind]
    simp
  refine ⟨hsend, ?_, hfindwt, hprep⟩
  simp [clientSendRequest, hmsfp, hsend, Registry.writeThrough_writeThrough]

/-- Witness for C6: a concrete request whose decoder rejects the bytes
returns the decode error while the registry still maps peer 1 to the same
sender with the same handle. -/
theorem decodeFailure_preserves_stream_witness :
    clientSendRequest
        { senders := [(1, { sid := 0, peerID := 1, ctxLock := newCtxMutex, stream := some { peer := 1, proto := "v1" } })],
          nextId := 1 } 1
        (prepOrInvalidate (fun _ => true) ["v1"])
        [(1, { sid := 0, peerID := 1, ctxLock := newCtxMutex, stream := some { peer := 1, proto := "v1" } })]
        { writeErr := none, responseArrival := some 3, responseBytes := [7] }
        (fun _ => some (.other 5)) none 0 =
      ([(1, { sid := 0, peerID := 1, ctxLock := newCtxMutex, stream := some { peer := 1, proto := "v1" } })],
       .error (.other 5)) := by
  have h := (decodeFailure_preserves_stream
    { senders := [(1, { sid := 0, peerID := 1, ctxLock := newCtxMutex, stream := some { peer := 1, proto := "v1" } })],
      nextId := 1 } 1 (fun _ => true) ["v1"]
    { writeErr := none, responseArrival := some 3, responseBytes := [7] }
    (fun _ => some (.other 5)) none 0 3 (.other 5)
    { sid := 0, peerID := 1, ctxLock := newCtxMutex, stream := some { peer := 1, proto := "v1" } }
    { peer := 1, proto := "v1" }
    rfl rfl rfl rfl (by decide) rfl).2.1
  simpa [Registry.writeThrough] using h

theorem openStream_first (accepts : ProtocolID → Bool) (pid : PeerID) :
    ∀ (l1 : List ProtocolID) (p : ProtocolID) (l2 : List ProtocolID),
      (∀ q ∈ l1, accepts q = false) → accepts p = true →
      openStream accepts pid (l1 ++ p :: l2) = .ok { peer := pid, proto := p } := by
  intro l1
  induction l1 with
  | nil =>
      intro p l2 _ hp
      simp [openStream, hp]
  | cons q l1 ih =>
      intro p l2 hl hp
      have hq : accepts q = false := hl q (by simp)
      simp only [List.cons_append, openStream, hq]
      simpa using ih p l2 (fun r hr => hl r (by simp [hr])) hp

theorem openStream_allFail (accepts : ProtocolID → Bool) (pid : PeerID) :
    ∀ protos : List ProtocolID, (∀ q ∈ protos, accepts q = false) →
      openStream accepts pid protos = .error negotiationFailed := by
  intro protos
  induction protos with
  | nil => intro _; rfl
  | cons q rest ih =>
      intro hl
      have hq : accepts q = false := hl q (by simp)
      simp only [openStream, hq]
      simpa using ih (fun r hr => hl r (by simp [hr]))

/-- C7: protocol negotiation order.  On a sender with no stream handle,
the accepted protocols are attempted in list order and the first protocol
the peer accepts wins; if the host fails on every protocol the call
errors, leaves the handle absent and releases the lock; in particular with
preference list `["v2", "v1"]` against a peer accepting only `"v1"`,
negotiation passes over `"v2"` and succeeds using `"v1"`. -/
theorem negotiation_order (accepts : ProtocolID → Bool) (ms : PeerMessageSender)
    (l1 l2 protos : List ProtocolID) (p : ProtocolID)
    (hms : ms.stream = none) :
    ((∀ q ∈ l1, accepts q = false) → accepts p = true →
      prepOrInvalidate accepts (l1 ++ p :: l2) ms =
        ({ ms with stream := some { peer := ms.peerID, proto := p } }, .ok ())) ∧
    ((∀ q ∈ protos, accepts q = false) →
      prepOrInvalidate accepts protos ms =
        ({ ms with ctxLock := newCtxMutex }, .error negotiationFailed) ∧
      ({ ms with ctxLock := newCtxMutex } : PeerMessageSender).stream = none) ∧
    prepOrInvalidate (fun q => q == "v1") ["v2", "v1"]
        { sid := 0, peerID := 7, ctxLock := newCtxMutex, stream := none } =
      ({ sid := 0, peerID := 7, ctxLock := newCtxMutex, stream := some { peer := 7, proto := "v1" } },
       .ok ()) := by
  refine ⟨?_, ?_, ?_⟩
  · intro hl hp
    simp [prepOrInvalidate, hms, openStream_first accepts ms.peerID l1 p l2 hl hp]
  · intro hfail
    refine ⟨?_, hms⟩
    simp [prepOrInvalidate, hms, openStream_allFail accepts ms.peerID protos hfail]
  · rfl

/-- Witness for C7: the `["v2", "v1"]` against a v1-only peer scenario,
taken at a concrete unprepared sender for peer 7. -/
theorem negotiation_order_witness :
    prepOrInvalidate (fun q => q == "v1") ["v2", "v1"]
        { sid := 0, peerID := 7, ctxLock := newCtxMutex, stream := none } =
      ({ sid := 0, peerID := 7, ctxLock := newCtxMutex, stream := some { peer := 7, proto := "v1" } },
       .ok ()) :=
  (negotiation_order (fun q => q == "v1")
    { sid := 0, peerID := 7, ctxLock := newCtxMutex, stream := none }
    [] [] [] "v1" rfl).2.2

/-- C8 (amended): every successful `NewClient` yields a client whose
protocol list is the single-element `[protoID]` taken from the positional
argument — the applied options never influence it — and `NewClient`
returns an error exactly when applying the options fails. -/
theorem newClient_protocols (hostID : PeerID) (protoID : ProtocolID)
    (options : List ClientOption) :
    (∀ c, NewClient hostID protoID options = .ok c →
      c = { self := hostID, protocols := [protoID] }) ∧
    (∀ e, NewClient hostID protoID options = .error e ↔
      clientConfig.apply { protocols := none } options = .error e) := by
  constructor
  · intro c hc
    unfold NewClient at hc
    cases happ : clientConfig.apply { protocols := none } options with
    | error e => rw [happ] at hc; cases hc
    | ok cfg =>
        rw [happ] at hc
        exact (Except.ok.inj hc).symm
  · intro e
    unfold NewClient
    cases happ : clientConfig.apply { protocols := none } options with
    | error e2 => simp [happ]
    | ok cfg => simp [happ]

/-- Witness for C8's amended claim: a failing option makes `NewClient`
fail with that option's error. -/
theorem newClient_protocols_witness :
    NewClient 3 "x" [fun _ => .error (.other 2)] = .error (.other 2) :=
  ((newClient_protocols 3 "x" [fun _ => .error (.other 2)]).2 (.other 2)).mpr rfl

/-- Counterexample to C8 as stated: an option setting the accepted
protocols to `["v9", "v1"]` is applied successfully, yet the constructed
client's protocol list is `["p0"]` from the positional argument — the list
the options determined (as `NewClientSpec`, written from the spec's words,
shows) differs from what `NewClient` builds. -/
theorem newClient_ignores_protocol_options :
    NewClient 0 "p0" [withProtocols ["v9", "v1"]] =
      .ok { self := 0, protocols := ["p0"] } ∧
    clientConfig.apply { protocols := none } [withProtocols ["v9", "v1"]] =
      .ok { protocols := some ["v9", "v1"] } ∧
    NewClientSpec 0 "p0" [withProtocols ["v9", "v1"]] =
      .ok { self := 0, protocols := ["v9", "v1"] } ∧
    (["p0"] : List ProtocolID) ≠ ["v9", "v1"] := by
  refine ⟨rfl, rfl, rfl, ?_⟩
  decide

theorem sids_step (st : ClientState) (op : RegOp) :
    st.nextId ≤ (RegOp.step st op).nextId ∧
    ∀ x ∈ ((RegOp.step st op).senders).sids,
      x ∈ st.senders.sids ∨ (x = st.nextId ∧ st.nextId < (RegOp.step st op).nextId) := by
  cases op with
  | lookup p =>
      cases hfind : st.senders.find p with
      | some ms =>
          simp only [RegOp.step, ClientState.peerSender, hfind]
          exact ⟨le_refl _, fun x hx => Or.inl hx⟩
      | none =>
          simp only [RegOp.step, ClientState.peerSender, hfind]
          refine ⟨Nat.le_succ _, fun x hx => ?_⟩
          rcases Registry.mem_sids_insert _ _ _ _ hx with hx | hx
          · exact Or.inl hx
          · exact Or.inr ⟨hx, Nat.lt_succ_self _⟩
  | prepFailed p sid e =>
      refine ⟨le_refl _, fun x hx => Or.inl ?_⟩
      revert hx
      cases hfind : st.senders.find p with
      | some cur =>
          by_cases hsid : cur.sid = sid
          · simp only [RegOp.step, messageSenderForPeerOnErr, hfind, hsid, if_pos]
            exact fun hx => Registry.mem_sids_erase _ _ _ hx
          · simp only [RegOp.step, messageSenderForPeerOnErr, hfind, if_neg hsid]
            exact fun hx => hx
      | none =>
          simp only [RegOp.step, messageSenderForPeerOnErr, hfind]
          exact fun hx => hx
  | disconnect p =>
      exact ⟨le_refl _, fun x hx => Or.inl (Registry.mem_sids_erase _ _ _ hx)⟩
  | mutate ms =>
      refine ⟨le_refl _, fun x hx => Or.inl ?_⟩
      rwa [RegOp.step, Registry.sids_writeThrough] at hx

theorem runOps_no_resurrection (ops : List RegOp) :
    ∀ (st : ClientState) (s : SenderID), s < st.nextId → s ∉ st.senders.sids →
      s ∉ ((runOps ops st).senders).sids := by
  induction ops with
  | nil =>
      intro st s _ h2
      simpa [runOps] using h2
  | cons op ops ih =>
      intro st s h1 h2
      have hstep := sids_step st op
      have hrun : runOps (op :: ops) st = runOps ops (RegOp.step st op) := rfl
      rw [hrun]
      refine ih (RegOp.step st op) s (lt_of_lt_of_le h1 hstep.1) ?_
      intro hx
      rcases hstep.2 s hx with hx | hx
      · exact h2 hx
      · exact absurd hx.1 (Nat.ne_of_lt h1)

/-- C3: evicted senders are never reinserted.  Once an allocated sender
identity `s` is no longer reachable from the registry, no sequence of the
code's registry operations ever makes `s` reachable again; and the next
lookup for a peer with no entry constructs and inserts a fresh sender in
the unprepared state (no stream handle) whose identity differs from `s`. -/
theorem evicted_never_reinserted (st : ClientState) (s : SenderID)
    (peerID : PeerID) (ops : List RegOp)
    (hlt : s < st.nextId) (hs : s ∉ st.senders.sids) :
    s ∉ ((runOps ops st).senders).sids ∧
    (st.senders.find peerID = none →
      (st.peerSender peerID).1.stream = none ∧
      (st.peerSender peerID).1.sid ≠ s ∧
      ((st.peerSender peerID).2).senders.find peerID =
        some ((st.peerSender peerID).1)) := by
  refine ⟨runOps_no_resurrection ops st s hlt hs, ?_⟩
  intro hfind
  refine ⟨?_, ?_, ?_⟩
  · simp [ClientState.peerSender, hfind]
  · simp only [ClientState.peerSender, hfind]
    exact fun h => absurd h.symm (Nat.ne_of_lt hlt)
  · simp [ClientState.peerSender, hfind, Registry.find_insert_self]

/-- Witness for C3: sender 0 was allocated and evicted; after a lookup, a
disconnect and another lookup for peer 4, identity 0 is still not
reachable from the registry. -/
theorem evicted_never_reinserted_witness :
    0 ∉ ((runOps [RegOp.lookup 4, RegOp.disconnect 4, RegOp.lookup 4]
      { senders := [], nextId := 1 }).senders).sids :=
  (evicted_never_reinserted { senders := [], nextId := 1 } 0 4
    [RegOp.lookup 4, RegOp.disconnect 4, RegOp.lookup 4]
    (by decide) (by simp [Registry.sids])).1

theorem lockInv_init : LockInv initLock := by
  refine ⟨?_, ?_, ?_, ?_⟩
  · intro c p h
    simp [initLock] at h
  · intro p
    exact le_refl _
  · intro p e he
    simp [initLock] at he
  · intro p
    simp [initLock]

theorem lockStep_inv (st st' : LockState) (h : LockInv st) (hs : LockStep st st') :
    LockInv st' := by
  obtain ⟨h1, h2, h3, h4⟩ := h
  cases hs with
  | request c p hc =>
      refine ⟨?_, h2, h3, h4⟩
      intro c' p' hcrit
      simp only [Function.update_apply] at hcrit
      by_cases hcc : c' = c
      · simp [hcc] at hcrit
      · rw [if_neg hcc] at hcrit
        exact h1 c' p' hcrit
  | acquire c p hc hfree =>
      refine ⟨?_, ?_, ?_, h4⟩
      · intro c' p' hcrit
        simp only [Function.update_apply] at hcrit ⊢
        by_cases hcc : c' = c
        · subst hcc
          rw [if_pos rfl] at hcrit
          injection hcrit with hpp
          subst hpp
          rw [if_pos rfl]
        · rw [if_neg hcc] at hcrit
          have hh := h1 c' p' hcrit
          by_cases hpp : p' = p
          · subst hpp
            rw [hfree] at hh
            cases hh
          · rw [if_neg hpp]
            exact hh
      · intro p'
        simp only [Function.update_apply]
        by_cases hpp : p' = p
        · simp [hpp]
        · simp only [if_neg hpp]
          exact h2 p'
      · intro p' e he
        simp only [Function.update_apply]
        by_cases hpp : p' = p
        · subst hpp
          rw [if_pos rfl]
          exact le_trans (h3 p' e he) (le_trans (h2 p') (Nat.le_succ _))
        · rw [if_neg hpp]
          exact h3 p' e he
  | write c p m hc =>
      refine ⟨h1, h2, ?_, ?_⟩
      · intro p' e he
        simp only [Function.update_apply] at he
        by_cases hpp : p' = p
        · subst hpp
          rw [if_pos rfl] at he
          rcases List.mem_append.mp he with he | he
          · exact h3 p' e he
          · simp only [List.mem_singleton] at he
            rw [he]
        · rw [if_neg hpp] at he
          exact h3 p' e he
      · intro p'
        simp only [Function.update_apply]
        by_cases hpp : p' = p
        · subst hpp
          rw [if_pos rfl, List.map_append]
          refine List.pairwise_append.mpr ⟨h4 p', ?_, ?_⟩
          · simp
          · intro a ha b hb
            simp only [List.map_cons, List.map_nil, List.mem_singleton] at hb
            subst hb
            rcases List.mem_map.mp ha with ⟨e0, he0, rfl⟩
            exact h3 p' e0 he0
        · rw [if_neg hpp]
          exact h4 p'
  | release c p hc =>
      refine ⟨?_, h2, h3, h4⟩
      intro c' p' hcrit
      simp only [Function.update_apply] at hcrit ⊢
      by_cases hcc : c' = c
      · simp [hcc] at hcrit
      · rw [if_neg hcc] at hcrit
        have hh := h1 c' p' hcrit
        by_cases hpp : p' = p
        · subst hpp
          exact absurd (Option.some.inj (hh.symm.trans (h1 c p' hc))) hcc
        · rw [if_neg hpp]
          exact hh
  | cancelWait c p hc =>
      refine ⟨?_, h2, h3, h4⟩
      intro c' p' hcrit
      simp only [Function.update_apply] at hcrit
      by_cases hcc : c' = c
      · simp [hcc] at hcrit
      · rw [if_neg hcc] at hcrit
        exact h1 c' p' hcrit

theorem lockInv_reachable (st : LockState) (h : ReachableLock st) : LockInv st := by
  induction h with
  | refl => exact lockInv_init
  | tail hab hbc ih => exact lockStep_inv _ _ ih hbc

/-- C9: per-peer serialization and cross-peer independence.  In every
reachable state of the lock model, two callers are never simultaneously
inside the critical section of the same peer (so writes on one peer's
stream never interleave); a caller writing on a peer's stream is exactly
the holder of that peer's cancellable lock; the write log of each peer is
ordered by the acquisition index of the lock (messages are applied in the
order their senders acquired the lock); and whether a caller can acquire
peer `p`'s lock is unaffected by the state of any other peer's lock. -/
theorem perPeer_serialization (st : LockState) (hr : ReachableLock st) :
    (∀ c1 c2 p, st.phase c1 = Phase.critical p → st.phase c2 = Phase.critical p →
      c1 = c2) ∧
    (∀ c p, st.phase c = Phase.critical p → st.holder p = some c) ∧
    (∀ p, ((st.log p).map (fun e => e.2.1)).Sorted (· ≤ ·)) ∧
    (∀ c p q v, q ≠ p →
      (acquireEnabled { st with holder := Function.update st.holder q v } c p ↔
        acquireEnabled st c p)) := by
  have hinv := lockInv_reachable st hr
  refine ⟨?_, hinv.1, hinv.2.2.2, ?_⟩
  · intro c1 c2 p hp1 hp2
    have e1 := hinv.1 c1 p hp1
    have e2 := hinv.1 c2 p hp2
    exact Option.some.inj (e1.symm.trans e2)
  · intro c p q v hqp
    unfold acquireEnabled
    simp [Function.update_noteq (Ne.symm hqp)]

/-- Witness for C9: after caller 0 requests and acquires peer 0's lock in
the concrete two-step run, the theorem yields that caller 0 is the
recorded holder, and the (empty) write log of peer 0 is ordered. -/
theorem perPeer_serialization_witness :
    lockDemo2.holder 0 = some 0 ∧
    ((lockDemo2.log 0).map (fun e => e.2.1)).Sorted (· ≤ ·) := by
  have hreach : ReachableLock lockDemo2 :=
    Relation.ReflTransGen.tail
      (Relation.ReflTransGen.tail Relation.ReflTransGen.refl
        (LockStep.request initLock 0 0 rfl))
      (LockStep.acquire lockDemo1 0 0 rfl rfl)
  have h := perPeer_serialization lockDemo2 hreach
  exact ⟨h.2.1 0 0 rfl, h.2.2.1 0⟩

end Libp2pClient
